import Mathlib

/-!
Formal model of the ingestion-and-retrieval core of a small RAG
(retrieval-augmented generation) service: text chunking
(`convert_text_into_chunks` in `core/convert_to_chunks.py`), vector storage
(`Qdrant_VDB.store_document_embeddings` in `vector_db/qdrant.py`), retrieval
(`Qdrant_VDB.retrieve_document_embeddings`, `extract_text_chunk`) and the
query entry point (`process_query` in `api/query.py`).

Texts are modelled as `List Char`.  Python string indices may be negative,
so chunk boundaries are `ℤ` and slicing/`rfind` apply Python's index
normalization (`pyClamp`).  The external embedding model and the Qdrant
client are fallible oracles passed as function arguments.  Loops that the
source does not obviously terminate (the chunker's sliding window) are
modelled with explicit fuel, returning `none` when the fuel runs out.
-/

/-- The ASCII whitespace characters matched by Python's regex class `\s`
    (and accepted by `str.strip`).  Non-ASCII unicode whitespace is not
    modelled; no claim depends on it. -/
def pyIsSpace (c : Char) : Bool :=
  c == ' ' || c == '\t' || c == '\n' || c == '\r' || c == '\x0b' || c == '\x0c'

/-- Python `str.strip()`: drop leading and trailing whitespace. -/
def pyStrip (s : List Char) : List Char :=
  ((s.dropWhile pyIsSpace).reverse.dropWhile pyIsSpace).reverse

/-- Python `str.rstrip()`: drop trailing whitespace. -/
def pyRstrip (s : List Char) : List Char :=
  (s.reverse.dropWhile pyIsSpace).reverse

/-- Helper for `re.sub(r'\s+', ' ', text)`: collapse every maximal run of
    whitespace characters into a single space.  The Boolean flag records
    whether the previous character belonged to a whitespace run. -/
def collapseWsAux : Bool → List Char → List Char
  | _, [] => []
  | prevWs, c :: rest =>
    if pyIsSpace c then
      if prevWs then collapseWsAux true rest
      else ' ' :: collapseWsAux true rest
    else c :: collapseWsAux false rest

/-- `text = re.sub(r'\s+', ' ', text).strip()` — the normalization step at
    the top of `convert_text_into_chunks`. -/
def pyNormalize (s : List Char) : List Char :=
  pyStrip (collapseWsAux false s)

/-- Python index normalization for a sequence of length `len`: a negative
    index counts from the end (clamped at 0), a non-negative index is
    clamped at `len`. -/
def pyClamp (len : ℕ) (i : ℤ) : ℕ :=
  if i < 0 then ((len : ℤ) + i).toNat else min i.toNat len

/-- Python slice `t[a:b]`. -/
def pySlice (t : List Char) (a b : ℤ) : List Char :=
  (t.drop (pyClamp t.length a)).take (pyClamp t.length b - pyClamp t.length a)

/-- Scan indices `lo + n - 1, …, lo` (highest first) for a `'.'` character,
    mirroring the backward search of `str.rfind`. -/
def rfindDotAux (t : List Char) (lo : ℕ) : ℕ → Option ℕ
  | 0 => none
  | n + 1 => if t.getD (lo + n) ' ' = '.' then some (lo + n) else rfindDotAux t lo n

/-- Python `text.rfind('.', a, b)`: the greatest index of `'.'` in the
    normalized range `[a, b)`, as `some`; `none` plays the role of the
    sentinel `-1`. -/
def pyRfindDot (t : List Char) (a b : ℤ) : Option ℕ :=
  rfindDotAux t (pyClamp t.length a) (pyClamp t.length b - pyClamp t.length a)

/-- One window's cut position, from the loop body of
    `convert_text_into_chunks`: the candidate end is `start + chunk_len`;
    when it lies strictly before the text end and the window holds a period
    strictly past the 50% mark, cut just after that period.  The Python
    comparison `next_period > start + chunk_len * 0.5` is exact halving
    (multiplication by 0.5 is exact in IEEE arithmetic for these
    magnitudes), rendered here as `2 * p > 2 * start + chunk_len`. -/
def stepEnd (t : List Char) (chunk_len : ℕ) (start : ℤ) : ℤ :=
  let cand := start + chunk_len
  if cand < (t.length : ℤ) then
    match pyRfindDot t start cand with
    | some p => if 2 * (p : ℤ) > 2 * start + chunk_len then (p : ℤ) + 1 else cand
    | none => cand
  else cand

/-- The sliding-window loop of `convert_text_into_chunks`, with fuel.  Each
    iteration records the window `(start, end)` together with the emitted
    chunk `text[start:end].strip()`, then advances `start = end - overlap`.
    Fuel exhaustion returns `none` (the source loop has no such bound; the
    fuel only makes non-termination observable). -/
def chunkLoop (t : List Char) (chunk_len overlap : ℕ) :
    ℕ → ℤ → List (ℤ × ℤ × List Char) → Option (List (ℤ × ℤ × List Char))
  | 0, _, _ => none
  | fuel + 1, start, acc =>
    if start < (t.length : ℤ) then
      chunkLoop t chunk_len overlap fuel (stepEnd t chunk_len start - overlap)
        (acc ++ [(start, stepEnd t chunk_len start,
                  pyStrip (pySlice t start (stepEnd t chunk_len start)))])
    else some acc

/-- `convert_text_into_chunks(text, chunk_len, overlap)`: normalize
    whitespace, short-circuit when the normalized text fits in one chunk,
    otherwise run the sliding-window loop.  `some chunks` is a terminating
    run within `fuel` iterations. -/
def convert_text_into_chunks (text : List Char) (chunk_len overlap fuel : ℕ) :
    Option (List (List Char)) :=
  let t := pyNormalize text
  if t.length ≤ chunk_len then some [t]
  else (chunkLoop t chunk_len overlap fuel 0 []).map (fun ws => ws.map (fun w => w.2.2))

/-- The `(start, end)` boundary trace of the same run of
    `convert_text_into_chunks` (empty for the single-chunk short-circuit,
    which runs no loop). -/
def chunkBoundaries (text : List Char) (chunk_len overlap fuel : ℕ) :
    Option (List (ℤ × ℤ)) :=
  let t := pyNormalize text
  if t.length ≤ chunk_len then some []
  else (chunkLoop t chunk_len overlap fuel 0 []).map (fun ws => ws.map (fun w => (w.1, w.2.1)))

/-! ## Basic facts about the Python string primitives -/

theorem pyStrip_length_le (s : List Char) : (pyStrip s).length ≤ s.length := by
  simp only [pyStrip, List.length_reverse]
  calc ((s.dropWhile pyIsSpace).reverse.dropWhile pyIsSpace).length
      ≤ (s.dropWhile pyIsSpace).reverse.length := (List.dropWhile_sublist _).length_le
    _ = (s.dropWhile pyIsSpace).length := List.length_reverse _
    _ ≤ s.length := (List.dropWhile_sublist _).length_le

theorem pyClamp_le (len : ℕ) (i : ℤ) : pyClamp len i ≤ len := by
  unfold pyClamp
  split <;> omega

theorem pyClamp_sub_le (len : ℕ) (a b : ℤ) (h : a ≤ b) :
    pyClamp len b - pyClamp len a ≤ (b - a).toNat := by
  unfold pyClamp
  split <;> split <;> omega

theorem pySlice_length_le_clamp (t : List Char) (a b : ℤ) :
    (pySlice t a b).length ≤ pyClamp t.length b - pyClamp t.length a := by
  simp only [pySlice]
  exact List.length_take_le _ _

/-! ## Facts about the backward period search (`str.rfind('.', lo, hi)`) -/

theorem rfindDotAux_spec (t : List Char) (lo : ℕ) :
    ∀ n p, rfindDotAux t lo n = some p →
      lo ≤ p ∧ p < lo + n ∧ t.getD p ' ' = '.' ∧
        ∀ q, q < lo + n → p < q → t.getD q ' ' ≠ '.' := by
  intro n
  induction n with
  | zero => intro p h; simp [rfindDotAux] at h
  | succ n ih =>
    intro p h
    rw [rfindDotAux] at h
    split at h
    · rename_i hdot
      injection h with h
      subst h
      exact ⟨by omega, by omega, hdot, fun q hq1 hq2 => absurd hq1 (by omega)⟩
    · rename_i hdot
      obtain ⟨h1, h2, h3, h4⟩ := ih p h
      refine ⟨h1, by omega, h3, ?_⟩
      intro q hq1 hq2
      by_cases hq : q = lo + n
      · subst hq; exact hdot
      · exact h4 q (by omega) hq2

theorem rfindDotAux_none (t : List Char) (lo : ℕ) :
    ∀ n, rfindDotAux t lo n = none →
      ∀ q, q < lo + n → lo ≤ q → t.getD q ' ' ≠ '.' := by
  intro n
  induction n with
  | zero => intro _ q hq1 hq2; omega
  | succ n ih =>
    intro h q hq1 hq2
    rw [rfindDotAux] at h
    split at h
    · exact absurd h (by simp)
    · rename_i hdot
      by_cases hq : q = lo + n
      · subst hq; exact hdot
      · exact ih h q (by omega) hq2

/-! ## Per-window facts about the chunker -/

/-- Every window the chunker emits spans at most `chunk_len` characters:
    the cut can only move the candidate end `start + chunk_len` backward. -/
theorem stepEnd_slice_le (t : List Char) (chunk_len : ℕ) (start : ℤ) :
    (pySlice t start (stepEnd t chunk_len start)).length ≤ chunk_len := by
  have hcand := pyClamp_sub_le t.length start (start + chunk_len) (by omega)
  rw [stepEnd]
  split
  · rcases hfind : pyRfindDot t start (start + (chunk_len : ℤ)) with _ | p
    · simp only [hfind]
      have := pySlice_length_le_clamp t start (start + (chunk_len : ℤ))
      omega
    · simp only [hfind]
      split
      · obtain ⟨h1, h2, _, _⟩ := rfindDotAux_spec t _ _ p hfind
        have hple : p + 1 ≤ pyClamp t.length (start + (chunk_len : ℤ)) := by omega
        have hlen : p + 1 ≤ t.length :=
          le_trans hple (pyClamp_le _ _)
        have hcl : pyClamp t.length ((p : ℤ) + 1) = p + 1 := by
          unfold pyClamp
          split <;> omega
        have := pySlice_length_le_clamp t start ((p : ℤ) + 1)
        omega
      · have := pySlice_length_le_clamp t start (start + (chunk_len : ℤ))
        omega
  · have := pySlice_length_le_clamp t start (start + (chunk_len : ℤ))
    omega

/-- Forward progress of the sliding window: when `chunk_len ≥ 1` and
    `2 * overlap ≤ chunk_len`, the next start `end - overlap` strictly
    exceeds the current start, whether or not the sentence cut fires
    (a fired cut sits strictly past the window's 50% mark). -/
theorem stepEnd_progress (t : List Char) (chunk_len overlap : ℕ) (start : ℤ)
    (hc : 1 ≤ chunk_len) (ho : 2 * overlap ≤ chunk_len) :
    start + 1 ≤ stepEnd t chunk_len start - overlap := by
  rw [stepEnd]
  split
  · rcases hfind : pyRfindDot t start (start + (chunk_len : ℤ)) with _ | p
    · simp only [hfind]
      omega
    · simp only [hfind]
      split
      · rename_i hcond
        omega
      · omega
  · omega

/-! ## Termination of the loop under the strengthened precondition -/

theorem chunkLoop_terminates (t : List Char) (chunk_len overlap : ℕ)
    (hc : 1 ≤ chunk_len) (ho : 2 * overlap ≤ chunk_len) :
    ∀ (fuel : ℕ) (start : ℤ) acc, (t.length : ℤ) ≤ start + (fuel : ℤ) →
      (chunkLoop t chunk_len overlap (fuel + 1) start acc).isSome := by
  intro fuel
  induction fuel with
  | zero =>
    intro start acc hle
    rw [chunkLoop, if_neg (by omega)]
    simp
  | succ fuel ih =>
    intro start acc hle
    rw [chunkLoop]
    split
    · refine ih _ _ ?_
      have := stepEnd_progress t chunk_len overlap start hc ho
      omega
    · simp

/-! ## Claim C8 — short-circuit on short input -/

/-- C8: whenever the whitespace-normalized text has length at most
    `chunk_len`, the chunker returns exactly one chunk, equal to the
    normalized text (also when it is empty); no loop iteration runs, so no
    fuel is needed. -/
theorem chunker_short_input (text : List Char) (chunk_len overlap fuel : ℕ)
    (h : (pyNormalize text).length ≤ chunk_len) :
    convert_text_into_chunks text chunk_len overlap fuel = some [pyNormalize text] := by
  simp [convert_text_into_chunks, h]

theorem chunker_short_input_witness :
    (pyNormalize ("  Hello \t world  ".toList)).length ≤ 500 ∧
      convert_text_into_chunks ("  Hello \t world  ".toList) 500 100 0 =
        some [pyNormalize ("  Hello \t world  ".toList)] :=
  ⟨by decide, chunker_short_input ("  Hello \t world  ".toList) 500 100 0 (by decide)⟩

/-! ## Claim C10 — every emitted chunk fits in `chunk_len` characters -/

theorem chunkLoop_chunk_le (t : List Char) (chunk_len overlap : ℕ) :
    ∀ (fuel : ℕ) (start : ℤ) acc res,
      chunkLoop t chunk_len overlap fuel start acc = some res →
      (∀ w ∈ acc, (w.2.2 : List Char).length ≤ chunk_len) →
      ∀ w ∈ res, w.2.2.length ≤ chunk_len := by
  intro fuel
  induction fuel with
  | zero => intro start acc res h; simp [chunkLoop] at h
  | succ fuel ih =>
    intro start acc res h hacc
    rw [chunkLoop] at h
    split at h
    · refine ih _ _ res h ?_
      intro w hw
      rcases List.mem_append.mp hw with h1 | h1
      · exact hacc w h1
      · have hw2 : w = (start, stepEnd t chunk_len start,
            pyStrip (pySlice t start (stepEnd t chunk_len start))) := by
          simpa using h1
        subst hw2
        exact le_trans (pyStrip_length_le _) (stepEnd_slice_le t chunk_len start)
    · injection h with h
      subst h
      exact hacc

/-- C10: for any parameters with `overlap < chunk_len`, whenever the
    chunker terminates every returned chunk has at most `chunk_len`
    characters: the sentence cut only moves a window's end backward, each
    window spans at most `chunk_len` characters even after Python's
    negative-index normalization, and the final `strip` only shortens. -/
theorem chunker_chunk_length_bound (text : List Char) (chunk_len overlap fuel : ℕ)
    (_hov : overlap < chunk_len) (chunks : List (List Char))
    (h : convert_text_into_chunks text chunk_len overlap fuel = some chunks) :
    ∀ ch ∈ chunks, ch.length ≤ chunk_len := by
  rw [convert_text_into_chunks] at h
  split at h
  · rename_i hshort
    injection h with h
    subst h
    intro ch hch
    simp only [List.mem_singleton] at hch
    subst hch
    exact hshort
  · rcases Option.map_eq_some'.mp h with ⟨ws, hws, hmap⟩
    subst hmap
    intro ch hch
    rcases List.mem_map.mp hch with ⟨w, hw, hwch⟩
    subst hwch
    exact chunkLoop_chunk_le _ _ _ fuel 0 [] ws hws (by simp) w hw

theorem chunker_chunk_length_bound_witness :
    1 < 3 ∧
      convert_text_into_chunks ("abcdef".toList) 3 1 10 =
        some ["abc".toList, "cde".toList, "ef".toList] ∧
      ∀ ch ∈ ["abc".toList, "cde".toList, "ef".toList], ch.length ≤ 3 :=
  ⟨by omega, by decide,
    chunker_chunk_length_bound ("abcdef".toList) 3 1 10 (by omega) _ (by decide)⟩

/-! ## Claim C2 — termination of the sliding window

The source never validates the parameters; `overlap < chunk_len` alone
does not give forward progress, because the sentence cut may pull the
window end down to as little as `start + chunk_len/2 + 2`, and
`start = end - overlap` then fails to advance. -/

/-- On `"abcdefg.bcdefghijk"` with `chunk_len = 10`, `overlap = 8` the
    first window cuts at the period (index 7, past the 50% mark), so
    `end = 8` and the next start is `8 - 8 = 0` again: the loop state never
    changes and no amount of fuel completes the run. -/
theorem c2_loop_stuck : ∀ (fuel : ℕ) acc,
    chunkLoop ("abcdefg.bcdefghijk".toList) 10 8 fuel 0 acc = none := by
  intro fuel
  induction fuel with
  | zero => intro acc; rfl
  | succ fuel ih =>
    intro acc
    have hstep : chunkLoop ("abcdefg.bcdefghijk".toList) 10 8 (fuel + 1) 0 acc =
        chunkLoop ("abcdefg.bcdefghijk".toList) 10 8 fuel 0
          (acc ++ [(0, 8, "abcdefg.".toList)]) := rfl
    rw [hstep]
    exact ih _

/-- C2 is refuted: the parameters `chunk_len = 10 > 8 = overlap` satisfy
    the claimed precondition, yet on the text `"abcdefg.bcdefghijk"` the
    sliding-window loop never terminates (no fuel bound produces a
    result), because the sentence cut pins the window start at 0. -/
theorem chunker_nontermination_counterexample :
    8 < 10 ∧
      ¬ ∃ fuel, (convert_text_into_chunks ("abcdefg.bcdefghijk".toList) 10 8 fuel).isSome := by
  refine ⟨by omega, ?_⟩
  rintro ⟨fuel, hsome⟩
  have hnorm : convert_text_into_chunks ("abcdefg.bcdefghijk".toList) 10 8 fuel =
      (chunkLoop ("abcdefg.bcdefghijk".toList) 10 8 fuel 0 []).map
        (fun ws => ws.map (fun w => w.2.2)) := rfl
  rw [hnorm, c2_loop_stuck fuel []] at hsome
  simp at hsome

/-- C2 amended: the chunker terminates for every input once the
    parameters satisfy `1 ≤ chunk_len` and `2 * overlap ≤ chunk_len`
    (each iteration then advances the start by at least one character);
    `normalized length + 1` loop iterations always suffice. -/
theorem chunker_terminates_amended (text : List Char) (chunk_len overlap : ℕ)
    (hc : 1 ≤ chunk_len) (ho : 2 * overlap ≤ chunk_len) :
    (convert_text_into_chunks text chunk_len overlap
      ((pyNormalize text).length + 1)).isSome := by
  rw [convert_text_into_chunks]
  split
  · simp
  · have := chunkLoop_terminates (pyNormalize text) chunk_len overlap hc ho
      (pyNormalize text).length 0 [] (by omega)
    rcases Option.isSome_iff_exists.mp this with ⟨ws, hws⟩
    simp [hws]

theorem chunker_terminates_amended_witness :
    1 ≤ 3 ∧ 2 * 1 ≤ 3 ∧
      (convert_text_into_chunks ("abcdef".toList) 3 1
        ((pyNormalize ("abcdef".toList)).length + 1)).isSome :=
  ⟨by omega, by omega,
    chunker_terminates_amended ("abcdef".toList) 3 1 (by omega) (by omega)⟩

/-! ## Claim C6 — the sentence-boundary cut rule -/

/-- `p` is the last sentence-terminating period of the window `[a, b)`:
    it holds `'.'` and no later position of the window does. -/
def isLastDotIn (t : List Char) (a b p : ℕ) : Prop :=
  a ≤ p ∧ p < b ∧ t.getD p ' ' = '.' ∧ ∀ q, q < b → p < q → t.getD q ' ' ≠ '.'

theorem isLastDotIn_unique (t : List Char) (a b p q : ℕ)
    (hp : isLastDotIn t a b p) (hq : isLastDotIn t a b q) : p = q := by
  by_contra hne
  rcases Nat.lt_or_ge p q with h | h
  · exact hp.2.2.2 q hq.2.1 h hq.2.2.1
  · exact hq.2.2.2 p hp.2.1 (by omega) hp.2.2.1

/-- C6: for a window whose candidate end `start + chunk_len` lies strictly
    before the text end, the cut lands just after the window's last period
    when that period sits strictly past the 50% mark, and exactly at
    `start + chunk_len` otherwise (no qualifying period, or none at all). -/
theorem chunker_window_cut (t : List Char) (chunk_len start : ℕ)
    (h : start + chunk_len < t.length) :
    (∀ p, isLastDotIn t start (start + chunk_len) p →
        stepEnd t chunk_len (start : ℤ) =
          if 2 * p > 2 * start + chunk_len then (p : ℤ) + 1 else (start : ℤ) + chunk_len) ∧
      ((∀ p, ¬ isLastDotIn t start (start + chunk_len) p) →
        stepEnd t chunk_len (start : ℤ) = (start : ℤ) + chunk_len) := by
  have hlo : pyClamp t.length (start : ℤ) = start := by
    unfold pyClamp
    split <;> omega
  have hhi : pyClamp t.length ((start : ℤ) + (chunk_len : ℤ)) = start + chunk_len := by
    unfold pyClamp
    split <;> omega
  have hfind : pyRfindDot t (start : ℤ) ((start : ℤ) + (chunk_len : ℤ)) =
      rfindDotAux t start chunk_len := by
    rw [pyRfindDot, hlo, hhi]
    congr 1
    omega
  have hcand : ((start : ℤ) + (chunk_len : ℤ)) < (t.length : ℤ) := by
    exact_mod_cast h
  rcases hdot : rfindDotAux t start chunk_len with _ | p0
  · have hnone := rfindDotAux_none t start chunk_len hdot
    constructor
    · intro p hp
      exact absurd hp.2.2.1 (hnone p hp.2.1 hp.1)
    · intro _
      rw [stepEnd]
      simp only [if_pos hcand, hfind, hdot]
  · obtain ⟨h1, h2, h3, h4⟩ := rfindDotAux_spec t start chunk_len p0 hdot
    have hp0 : isLastDotIn t start (start + chunk_len) p0 := ⟨h1, h2, h3, h4⟩
    constructor
    · intro p hp
      have hpp : p = p0 := isLastDotIn_unique t _ _ p p0 hp hp0
      subst hpp
      rw [stepEnd]
      simp only [if_pos hcand, hfind, hdot]
      by_cases hcut : 2 * p > 2 * start + chunk_len
      · rw [if_pos (by exact_mod_cast (by omega : (2 * p : ℤ) > 2 * start + chunk_len)),
          if_pos hcut]
      · rw [if_neg (by exact_mod_cast (by omega : ¬ (2 * p : ℤ) > 2 * start + chunk_len)),
          if_neg hcut]
    · intro hnone
      exact absurd hp0 (hnone p0)

theorem chunker_window_cut_witness :
    0 + 10 < ("abcdefg.bcdefghijk".toList).length ∧
      ((∀ p, isLastDotIn ("abcdefg.bcdefghijk".toList) 0 (0 + 10) p →
          stepEnd ("abcdefg.bcdefghijk".toList) 10 ((0 : ℕ) : ℤ) =
            if 2 * p > 2 * 0 + 10 then (p : ℤ) + 1 else ((0 : ℕ) : ℤ) + 10) ∧
        ((∀ p, ¬ isLastDotIn ("abcdefg.bcdefghijk".toList) 0 (0 + 10) p) →
          stepEnd ("abcdefg.bcdefghijk".toList) 10 ((0 : ℕ) : ℤ) = ((0 : ℕ) : ℤ) + 10)) :=
  ⟨by decide, chunker_window_cut ("abcdefg.bcdefghijk".toList) 10 0 (by decide)⟩

/-! ## Claim C5 — adjacent-boundary recurrence and gap-free coverage -/

theorem chunkLoop_boundary_spec (t : List Char) (chunk_len overlap : ℕ) :
    ∀ (fuel : ℕ) (start : ℤ) acc res,
      chunkLoop t chunk_len overlap fuel start acc = some res →
      ((acc = [] ∧ start = 0) ∨
        (List.Chain' (fun a b => b.1 = a.2.1 - (overlap : ℤ)) acc ∧
          (∃ w, acc.getLast? = some w ∧ start = w.2.1 - (overlap : ℤ)) ∧
          ∀ k : ℤ, 0 ≤ k → k < start + (overlap : ℤ) →
            ∃ w ∈ acc, w.1 ≤ k ∧ k < w.2.1)) →
      List.Chain' (fun a b => b.1 = a.2.1 - (overlap : ℤ)) res ∧
        ∀ k : ℤ, 0 ≤ k → k < (t.length : ℤ) → ∃ w ∈ res, w.1 ≤ k ∧ k < w.2.1 := by
  intro fuel
  induction fuel with
  | zero => intro start acc res h _; simp [chunkLoop] at h
  | succ fuel ih =>
    intro start acc res h hinv
    rw [chunkLoop] at h
    split at h
    · rename_i hlt
      refine ih _ _ res h (Or.inr ⟨?_, ?_, ?_⟩)
      · rw [List.chain'_append]
        refine ⟨?_, List.chain'_singleton _, ?_⟩
        · rcases hinv with ⟨rfl, _⟩ | ⟨hch, _, _⟩
          · exact List.chain'_nil
          · exact hch
        · intro x hx y hy
          simp only [List.head?_cons, Option.mem_def, Option.some.injEq] at hy
          subst hy
          rcases hinv with ⟨rfl, _⟩ | ⟨_, ⟨w, hw, hws⟩, _⟩
          · simp at hx
          · rw [Option.mem_def] at hx
            rw [hx] at hw
            injection hw with hw
            subst hw
            simpa using hws
      · exact ⟨(start, stepEnd t chunk_len start,
          pyStrip (pySlice t start (stepEnd t chunk_len start))),
          List.getLast?_concat _, rfl⟩
      · intro k hk0 hk1
        rcases hinv with ⟨rfl, rfl⟩ | ⟨_, _, hcov⟩
        · refine ⟨(0, stepEnd t chunk_len 0,
            pyStrip (pySlice t 0 (stepEnd t chunk_len 0))), by simp, hk0, ?_⟩
          show k < stepEnd t chunk_len 0
          omega
        · by_cases hk : k < start + (overlap : ℤ)
          · rcases hcov k hk0 hk with ⟨w, hw, hw1, hw2⟩
            exact ⟨w, List.mem_append_left _ hw, hw1, hw2⟩
          · refine ⟨(start, stepEnd t chunk_len start,
              pyStrip (pySlice t start (stepEnd t chunk_len start))),
              List.mem_append_right _ (by simp), ?_, ?_⟩
            · show start ≤ k
              omega
            · show k < stepEnd t chunk_len start
              omega
    · rename_i hge
      injection h with h
      subst h
      rcases hinv with ⟨rfl, rfl⟩ | ⟨hch, _, hcov⟩
      · exact ⟨List.chain'_nil, fun k hk0 hk1 => absurd hk1 (by omega)⟩
      · exact ⟨hch, fun k hk0 hk1 => hcov k hk0 (by omega)⟩

/-- C5: on text whose normalized length exceeds `chunk_len` (with
    `overlap < chunk_len`), whenever the chunker terminates its recorded
    window boundaries satisfy `start_{i+1} = end_i - overlap` for every
    adjacent pair, and the windows jointly cover every character position
    of the normalized text — the overlap leaves no gap. -/
theorem chunker_boundary_overlap (text : List Char) (chunk_len overlap fuel : ℕ)
    (_hov : overlap < chunk_len) (hlen : chunk_len < (pyNormalize text).length)
    (bs : List (ℤ × ℤ))
    (h : chunkBoundaries text chunk_len overlap fuel = some bs) :
    List.Chain' (fun a b => b.1 = a.2 - (overlap : ℤ)) bs ∧
      ∀ k : ℤ, 0 ≤ k → k < ((pyNormalize text).length : ℤ) →
        ∃ w ∈ bs, w.1 ≤ k ∧ k < w.2 := by
  rw [chunkBoundaries] at h
  split at h
  · rename_i hle
    exact absurd hle (by omega)
  · rcases Option.map_eq_some'.mp h with ⟨ws, hws, hmap⟩
    subst hmap
    obtain ⟨hch, hcov⟩ := chunkLoop_boundary_spec (pyNormalize text) chunk_len overlap
      fuel 0 [] ws hws (Or.inl ⟨rfl, rfl⟩)
    constructor
    · rw [List.chain'_map]
      exact hch
    · intro k hk0 hk1
      rcases hcov k hk0 hk1 with ⟨w, hw, h1, h2⟩
      exact ⟨(w.1, w.2.1), List.mem_map_of_mem _ hw, h1, h2⟩

theorem chunker_boundary_overlap_witness :
    1 < 3 ∧ 3 < (pyNormalize ("abcdef".toList)).length ∧
      chunkBoundaries ("abcdef".toList) 3 1 10 = some [(0, 3), (2, 5), (4, 7)] ∧
      (List.Chain' (fun a b => b.1 = a.2 - ((1 : ℕ) : ℤ)) [((0 : ℤ), (3 : ℤ)), (2, 5), (4, 7)] ∧
        ∀ k : ℤ, 0 ≤ k → k < ((pyNormalize ("abcdef".toList)).length : ℤ) →
          ∃ w ∈ [((0 : ℤ), (3 : ℤ)), (2, 5), (4, 7)], w.1 ≤ k ∧ k < w.2) :=
  ⟨by omega, by decide, by decide,
    chunker_boundary_overlap ("abcdef".toList) 3 1 10 (by omega) (by decide)
      [(0, 3), (2, 5), (4, 7)] (by decide)⟩

/-! ## The vector-store model

`Qdrant_VDB` in `vector_db/qdrant.py`.  A stored point's payload is
`{document_id, chunk_index, text?}` (`text` present only when a chunk text
was supplied).  Retrieval hits are modelled by their payloads, which is all
`extract_text_chunk` reads; the claims considered here presuppose payloads
carrying a `chunk_index`, so that field is total (a missing key would raise
`KeyError`, caught by the source's blanket handler). -/

structure Payload where
  chunk_index : ℕ
  text : Option (List Char)
  deriving DecidableEq

/-- The body of `extract_text_chunk`'s accumulation loop:
    `if 'text' in chunk: text += chunk['text'] + "\n"`. -/
def appendChunkText (acc : List Char) (ch : Payload) : List Char :=
  match ch.text with
  | some s => acc ++ s ++ ['\n']
  | none => acc

/-- The sort key comparison of `sorted(..., key=lambda x: x['chunk_index'])`. -/
def payloadLe (a b : Payload) : Bool :=
  decide (a.chunk_index ≤ b.chunk_index)

/-- `Qdrant_VDB.extract_text_chunk`: empty hits give `""`; otherwise sort
    the payloads by `chunk_index` (Python's `sorted` is a stable merge
    sort), append each present text followed by `"\n"`, and strip the
    trailing whitespace (`rstrip`). -/
def extract_text_chunk (hits : List Payload) : List Char :=
  if hits.isEmpty then []
  else pyRstrip ((hits.mergeSort payloadLe).foldl appendChunkText [])

/-- `Qdrant_VDB.retrieve_document_embeddings`: embed the query, search the
    store, reassemble — any failure of either external call is caught and
    degraded to `""`.  `embed` stands for `generate_embedding([q])[0]` and
    `queryPoints` for `client.query_points(...).points` (already projected
    to payloads); both are fallible oracles. -/
def retrieve_document_embeddings
    (embed : List Char → Except Unit (List ℚ))
    (queryPoints : List ℚ → Except Unit (List Payload))
    (user_query : List Char) : List Char :=
  match embed user_query with
  | Except.error _ => []
  | Except.ok v =>
    match queryPoints v with
    | Except.error _ => []
    | Except.ok hits => extract_text_chunk hits

/-- The retrieval pipeline (`execute_query` →
    `retrive_related_vector_embedding` → the method above), instrumented
    with counters `(embedding calls, vector-store calls)` so that "performs
    no embedding/store call" is a statement about the result. -/
def execute_query_instr
    (embed : List Char → Except Unit (List ℚ))
    (queryPoints : List ℚ → Except Unit (List Payload))
    (user_query : List Char) : List Char × ℕ × ℕ :=
  match embed user_query with
  | Except.error _ => ([], 1, 0)
  | Except.ok v =>
    match queryPoints v with
    | Except.error _ => ([], 1, 1)
    | Except.ok hits => (extract_text_chunk hits, 1, 1)

/-- Outcome of the HTTP entry point: a success envelope with the context
    string, or an `HTTPException` with its status code. -/
inductive ApiResult where
  | success (context : List Char)
  | httpError (statusCode : ℕ)
  deriving DecidableEq

/-- `process_query` in `api/query.py`: an empty or whitespace-only query is
    rejected with HTTP 400 (`"Query cannot be empty"`) before the RAG
    pipeline runs; otherwise the pipeline's context is returned in a
    success envelope.  The result carries the instrumentation counters of
    `execute_query_instr` (0, 0 when rejected up front). -/
def process_query
    (embed : List Char → Except Unit (List ℚ))
    (queryPoints : List ℚ → Except Unit (List Payload))
    (query : List Char) : ApiResult × ℕ × ℕ :=
  if pyStrip query = [] then (ApiResult.httpError 400, 0, 0)
  else
    (ApiResult.success (execute_query_instr embed queryPoints query).1,
      (execute_query_instr embed queryPoints query).2.1,
      (execute_query_instr embed queryPoints query).2.2)

/-- A persisted point of `store_document_embeddings`: id, vector, and the
    payload `{document_id, chunk_index, text?}` (flattened). -/
structure StoredPoint where
  id : ℕ
  vector : List ℚ
  document_id : List Char
  chunk_index : ℕ
  text : Option (List Char)
  deriving DecidableEq

/-- numpy truthiness of `embeddings.all()` for a 2-D float array: every
    component non-zero — and vacuously `True` on an empty array.  Vector
    components are modelled as `ℚ` (exact reals; only zero-ness matters to
    the guard). -/
def npAll (embeddings : List (List ℚ)) : Bool :=
  embeddings.all (fun v => v.all (fun x => !(decide (x = 0))))

/-- `Qdrant_VDB.store_document_embeddings(document_id, embeddings,
    chunk_texts)`: guard `if not embeddings.all(): return []`, then one
    point per embedding with payload `{document_id, chunk_index: i,
    text: chunk_texts[i]?}`, upserted as a batch.  `uuid.uuid4()` is
    modelled by a fresh-id counter `nextId` (successive ids are distinct),
    `client.upsert` by appending to `store`; the result is
    `(returned point ids, store after the call)`.  `extra_payload` defaults
    to `None` and is omitted. -/
def store_document_embeddings (document_id : List Char) (embeddings : List (List ℚ))
    (chunk_texts : List (List Char)) (nextId : ℕ) (store : List StoredPoint) :
    List ℕ × List StoredPoint :=
  if !(npAll embeddings) then ([], store)
  else
    ((List.range embeddings.length).map (fun i => nextId + i),
      store ++ embeddings.enum.map (fun ie =>
        ⟨nextId + ie.1, ie.2, document_id, ie.1,
          if ie.1 < chunk_texts.length then some (chunk_texts.getD ie.1 []) else none⟩))

/-! ## Claim C4 — ordered reassembly of retrieved chunks -/

/-- Concatenation with a newline separator (the claim's reassembly shape). -/
def newlineJoin : List (List Char) → List Char
  | [] => []
  | [t] => t
  | t :: rest => t ++ '\n' :: newlineJoin rest

theorem foldl_appendChunkText (l : List Payload) (hall : ∀ p ∈ l, p.text ≠ none) :
    ∀ acc, l.foldl appendChunkText acc =
      acc ++ (l.map (fun p => p.text.getD [] ++ ['\n'])).flatten := by
  induction l with
  | nil => intro acc; simp
  | cons p rest ih =>
    intro acc
    rcases hp : p.text with _ | s
    · exact absurd hp (hall p (by simp))
    · rw [List.foldl_cons]
      rw [ih (fun q hq => hall q (by simp [hq]))]
      simp [appendChunkText, hp]

theorem newlineJoin_concat (ts : List (List Char)) (h : ts ≠ []) :
    (ts.map (fun t => t ++ ['\n'])).flatten = newlineJoin ts ++ ['\n'] := by
  induction ts with
  | nil => exact absurd rfl h
  | cons t rest ih =>
    rcases rest with _ | ⟨t2, rest2⟩
    · simp [newlineJoin]
    · have hnj : newlineJoin (t :: t2 :: rest2) = t ++ '\n' :: newlineJoin (t2 :: rest2) := rfl
      rw [List.map_cons, List.flatten_cons, ih (by simp), hnj]
      simp

theorem pyRstrip_append_newline (s : List Char) :
    pyRstrip (s ++ ['\n']) = pyRstrip s := by
  have : pyIsSpace '\n' = true := by decide
  simp [pyRstrip, List.dropWhile_cons, this]

/-- C4: on a non-empty hit list whose payloads all carry a text, the
    reassembled context is the hits' texts in ascending `chunk_index`
    order (a permutation `l` of the hits, sorted by `chunk_index`), joined
    with a newline separator, with trailing whitespace stripped. -/
theorem extract_text_chunk_sorted (hits : List Payload)
    (h1 : hits ≠ []) (h2 : ∀ p ∈ hits, p.text ≠ none) :
    ∃ l : List Payload, hits.Perm l ∧
      l.Pairwise (fun a b => a.chunk_index ≤ b.chunk_index) ∧
      extract_text_chunk hits =
        pyRstrip (newlineJoin (l.map (fun p => p.text.getD []))) := by
  have hperm : (hits.mergeSort payloadLe).Perm hits := List.mergeSort_perm hits payloadLe
  refine ⟨hits.mergeSort payloadLe, hperm.symm, ?_, ?_⟩
  · have hpw := @List.sorted_mergeSort Payload payloadLe
      (fun a b c hab hbc => by
        simp only [payloadLe, decide_eq_true_eq] at hab hbc ⊢
        omega)
      (fun a b => by
        simp only [payloadLe]
        rcases Nat.le_total a.chunk_index b.chunk_index with h | h <;> simp [h])
      hits
    exact hpw.imp (fun hab => by
      simpa only [payloadLe, decide_eq_true_eq] using hab)
  · rw [extract_text_chunk, if_neg (by simpa using h1)]
    have hall : ∀ p ∈ hits.mergeSort payloadLe, p.text ≠ none :=
      fun p hp => h2 p (hperm.mem_iff.mp hp)
    rw [foldl_appendChunkText _ hall []]
    have hmap : (hits.mergeSort payloadLe).map (fun p => p.text.getD [] ++ ['\n']) =
        ((hits.mergeSort payloadLe).map (fun p => p.text.getD [])).map
          (fun t => t ++ ['\n']) := by
      rw [List.map_map]
      rfl
    have hne : (hits.mergeSort payloadLe).map (fun p => p.text.getD []) ≠ [] := by
      intro hcontra
      apply h1
      have := hperm.length_eq
      rw [List.map_eq_nil_iff] at hcontra
      rw [hcontra] at this
      exact List.length_eq_zero.mp this.symm
    rw [hmap, newlineJoin_concat _ hne, List.nil_append, pyRstrip_append_newline]

theorem extract_text_chunk_sorted_witness :
    ([⟨2, some ("c".toList)⟩, ⟨0, some ("a".toList)⟩, ⟨1, some ("b".toList)⟩] :
        List Payload) ≠ [] ∧
      (∀ p ∈ ([⟨2, some ("c".toList)⟩, ⟨0, some ("a".toList)⟩,
          ⟨1, some ("b".toList)⟩] : List Payload), p.text ≠ none) ∧
      ∃ l : List Payload,
        ([⟨2, some ("c".toList)⟩, ⟨0, some ("a".toList)⟩,
          ⟨1, some ("b".toList)⟩] : List Payload).Perm l ∧
        l.Pairwise (fun a b => a.chunk_index ≤ b.chunk_index) ∧
        extract_text_chunk
            [⟨2, some ("c".toList)⟩, ⟨0, some ("a".toList)⟩, ⟨1, some ("b".toList)⟩] =
          pyRstrip (newlineJoin (l.map (fun p => p.text.getD []))) :=
  ⟨by decide, by decide,
    extract_text_chunk_sorted
      [⟨2, some ("c".toList)⟩, ⟨0, some ("a".toList)⟩, ⟨1, some ("b".toList)⟩]
      (by decide) (by decide)⟩

/-! ## Claim C3 — retrieval swallows dependency failures -/

/-- C3: whenever the embedding call fails, or the embedding succeeds and
    the vector-store query fails, `retrieve_document_embeddings` returns
    the empty string instead of propagating the failure; by its type the
    operation returns a string on every input. -/
theorem retrieval_swallows_failures
    (embed : List Char → Except Unit (List ℚ))
    (queryPoints : List ℚ → Except Unit (List Payload))
    (q : List Char)
    (h : embed q = Except.error () ∨
      ∃ v, embed q = Except.ok v ∧ queryPoints v = Except.error ()) :
    retrieve_document_embeddings embed queryPoints q = [] := by
  rcases h with h | ⟨v, h1, h2⟩
  · simp [retrieve_document_embeddings, h]
  · simp [retrieve_document_embeddings, h1, h2]

theorem retrieval_swallows_failures_witness :
    (((fun _ => Except.error ()) : List Char → Except Unit (List ℚ)) ("q".toList) =
        Except.error () ∨
      ∃ v, ((fun _ => Except.error ()) : List Char → Except Unit (List ℚ)) ("q".toList) =
          Except.ok v ∧
        ((fun _ => Except.ok []) : List ℚ → Except Unit (List Payload)) v =
          Except.error ()) ∧
      retrieve_document_embeddings (fun _ => Except.error ()) (fun _ => Except.ok [])
        ("q".toList) = [] :=
  ⟨Or.inl rfl,
    retrieval_swallows_failures (fun _ => Except.error ()) (fun _ => Except.ok [])
      ("q".toList) (Or.inl rfl)⟩

/-! ## Claim C9 — no matches means empty context, not an error -/

/-- C9: when both external calls succeed but the store returns no
    records, retrieval returns the empty string (the `if not hits` branch
    of `extract_text_chunk`), not an error. -/
theorem retrieval_no_match_empty
    (embed : List Char → Except Unit (List ℚ))
    (queryPoints : List ℚ → Except Unit (List Payload))
    (q : List Char) (v : List ℚ)
    (h1 : embed q = Except.ok v) (h2 : queryPoints v = Except.ok []) :
    retrieve_document_embeddings embed queryPoints q = [] := by
  simp [retrieve_document_embeddings, h1, h2, extract_text_chunk]

theorem retrieval_no_match_empty_witness :
    (((fun _ => Except.ok [1]) : List Char → Except Unit (List ℚ)) ("q".toList) =
        Except.ok [1]) ∧
      (((fun _ => Except.ok []) : List ℚ → Except Unit (List Payload)) [1] =
        Except.ok []) ∧
      retrieve_document_embeddings (fun _ => Except.ok [1]) (fun _ => Except.ok [])
        ("q".toList) = [] :=
  ⟨rfl, rfl,
    retrieval_no_match_empty (fun _ => Except.ok [1]) (fun _ => Except.ok [])
      ("q".toList) [1] rfl rfl⟩

/-! ## Claim C7 — empty queries are rejected before any external call -/

/-- C7: a query that strips to the empty string is rejected with HTTP 400
    and neither the embedding model nor the vector store is called (both
    instrumentation counters stay 0). -/
theorem empty_query_rejected
    (embed : List Char → Except Unit (List ℚ))
    (queryPoints : List ℚ → Except Unit (List Payload))
    (query : List Char) (h : pyStrip query = []) :
    process_query embed queryPoints query = (ApiResult.httpError 400, 0, 0) := by
  simp [process_query, h]

theorem empty_query_rejected_witness :
    pyStrip ("  \t ".toList) = [] ∧
      process_query (fun _ => Except.ok [1]) (fun _ => Except.ok [])
        ("  \t ".toList) = (ApiResult.httpError 400, 0, 0) :=
  ⟨by decide,
    empty_query_rejected (fun _ => Except.ok [1]) (fun _ => Except.ok [])
      ("  \t ".toList) (by decide)⟩

/-! ## Claim C1 — the upsert guard misfires on vectors containing a zero -/

/-- C1 (code bug): `[[0, 1]]` is a non-empty batch of one vector, yet
    `store_document_embeddings` returns no point ids and leaves the store
    unwritten, because `if not embeddings.all()` tests numpy truthiness of
    every component (here the `0`) instead of emptiness.  The claim's
    "one record per vector is written and one fresh id per vector
    returned" fails on this input. -/
theorem store_zero_component_drops_batch :
    store_document_embeddings ("doc1".toList) [[0, 1]] [("alpha".toList)] 0 [] =
      ([], []) := by
  decide
